import Mathlib

/-!
Verification of the Script Dispatcher (`src/run_all.py`).

The script walks the current directory tree with `os.walk(Path('.'))`,
and for every file name `f` ending in `".ps1"` it calls
`subprocess.run(["powershell", "-NoProfile", f".\{f}"], cwd=r)`,
where `r` is the directory that `os.walk` reported for that file.

We embed the filesystem as a finite tree, `os.walk` as a pure traversal
producing `(dirpath, dirnames, filenames)` entries in top-down order
(the same order `os.walk` uses), and the dispatcher loop as a function
from trees to the list of process launches it performs, in order.
Path joining uses the separator "/" as on POSIX (`os.path.join(r, name)`).
-/

/-- A directory tree: named subdirectories (in listing order) and the
file names directly contained in this directory. -/
inductive FSTree where
  | node (dirs : List (String × FSTree)) (files : List String)
deriving Repr

/-- Python's `s.endswith(suffix)`: the characters of `suffix` form a
suffix of the characters of `s`. -/
def pyEndswith (s sfx : String) : Bool :=
  sfx.data.isSuffixOf s.data

/-- One external-process launch: the argv list handed to `subprocess.run`
and the working directory passed as `cwd`. -/
structure Launch where
  argv : List String
  cwd : String
deriving Repr, DecidableEq

/-- The launch the script performs for file `f` reported in directory `r`:
`subprocess.run(["powershell", "-NoProfile", f".\{f}"], cwd=r)`.
In the Python f-string the backslash is a literal character, so the third
argv element is the two characters `.\` followed by the file name. -/
def mkLaunch (r f : String) : Launch :=
  { argv := ["powershell", "-NoProfile", ".\\" ++ f], cwd := r }

mutual

/-- `os.walk(top)` in top-down order: first the entry for `top` itself,
then the walks of each subdirectory in listing order. -/
def walk (top : String) : FSTree → List (String × List String × List String)
  | .node dirs files =>
    (top, dirs.map Prod.fst, files) :: walkDirs top dirs

/-- Walks of a list of named subdirectories of `top`, concatenated. -/
def walkDirs (top : String) : List (String × FSTree) → List (String × List String × List String)
  | [] => []
  | (name, sub) :: rest => walk (top ++ "/" ++ name) sub ++ walkDirs top rest

end

/-- The dispatcher: for every `(r, d, files)` entry produced by
`os.walk(Path('.'))` and every `f` in `files` with `f.endswith('.ps1')`,
launch `subprocess.run(["powershell", "-NoProfile", f".\{f}"], cwd=r)`.
The result lists the launches in the order they are performed. -/
def run_all (t : FSTree) : List Launch :=
  (walk "." t).flatMap fun e =>
    (e.2.2.filter fun f => pyEndswith f ".ps1").map fun f => mkLaunch e.1 f

mutual

/-- Every file in the tree, paired with the path of its parent directory
(the directory that directly contains it), in traversal order. -/
def filesWithDirs (top : String) : FSTree → List (String × String)
  | .node dirs files =>
    files.map (fun f => (top, f)) ++ filesWithDirsList top dirs

/-- `filesWithDirs` over a list of named subdirectories of `top`. -/
def filesWithDirsList (top : String) : List (String × FSTree) → List (String × String)
  | [] => []
  | (name, sub) :: rest =>
    filesWithDirs (top ++ "/" ++ name) sub ++ filesWithDirsList top rest

end

/-- The files of the tree whose names end in `".ps1"`, each paired with
its parent directory, in traversal order. -/
def matchingFiles (t : FSTree) : List (String × String) :=
  (filesWithDirs "." t).filter fun p => pyEndswith p.2 ".ps1"

mutual

/-- The number of files in the tree whose names end in `".ps1"`. -/
def countMatching : FSTree → Nat
  | .node dirs files =>
    files.countP (fun f => pyEndswith f ".ps1") + countMatchingList dirs

/-- `countMatching` summed over a list of named subdirectories. -/
def countMatchingList : List (String × FSTree) → Nat
  | [] => 0
  | (_, sub) :: rest => countMatching sub + countMatchingList rest

end

/-- An observable event of the dispatcher run: a launched process starts,
or a launched process finishes (is awaited). -/
inductive PEvent where
  | start (l : Launch)
  | finish (l : Launch)
deriving Repr, DecidableEq

/-- The dispatcher's event trace. `subprocess.run` is synchronous: it
starts the process and waits for it to finish before returning, so each
launch contributes its start event immediately followed by its finish
event, in loop order. -/
def trace (t : FSTree) : List PEvent :=
  (run_all t).flatMap fun l => [PEvent.start l, PEvent.finish l]

/-- Outcome of one `subprocess.run` call under a launch oracle:
`Except.ok code` when a process ran to completion with exit code `code`,
`Except.error e` when the launch primitive raised an exception `e`
(e.g. `FileNotFoundError` for a missing interpreter). -/
def LaunchOracle : Type := Launch → Except String Int

/-- Sequential execution of a list of planned launches under an oracle.
The exit code of a completed process is ignored (`subprocess.run` is
called without `check=True`), so the loop continues regardless of the
code; an exception propagates at once (the script has no try/except),
so the run aborts after the failing attempt. Returns the final outcome
and the list of attempted launches, in order. -/
def runSeq (ex : LaunchOracle) : List Launch → Except String Unit × List Launch
  | [] => (Except.ok (), [])
  | l :: rest =>
    match ex l with
    | Except.error e => (Except.error e, [l])
    | Except.ok _ =>
      let r := runSeq ex rest
      (r.1, l :: r.2)

/-- The dispatcher run under a launch oracle: the planned launches of
`run_all` are attempted in order by `runSeq`. -/
def run_allE (ex : LaunchOracle) (t : FSTree) : Except String Unit × List Launch :=
  runSeq ex (run_all t)

/-- The spec's scenario tree as written: root contains `a/x.sh`,
`b/c/y.sh` and `readme.txt`. -/
def shScenario : FSTree :=
  .node [("a", .node [] ["x.sh"]), ("b", .node [("c", .node [] ["y.sh"])] [])]
    ["readme.txt"]

/-- The scenario tree with the script's actual target suffix `.ps1`:
root contains `a/x.ps1`, `b/c/y.ps1` and `readme.txt`. -/
def ps1Scenario : FSTree :=
  .node [("a", .node [] ["x.ps1"]), ("b", .node [("c", .node [] ["y.ps1"])] [])]
    ["readme.txt"]

/-- A root directory holding three matching files. -/
def threeScripts : FSTree := .node [] ["a.ps1", "b.ps1", "c.ps1"]

/-- An oracle under which the launch of `b.ps1` raises an exception and
every other launch completes with exit code 1. -/
def failSecond : LaunchOracle := fun l =>
  if l.argv.getD 2 "" = ".\\b.ps1" then Except.error "FileNotFoundError"
  else Except.ok 1

/-! ## Correspondence between the walk-based dispatcher and `filesWithDirs` -/

mutual

theorem run_all_walk (top : String) (t : FSTree) :
    ((walk top t).flatMap fun e =>
        (e.2.2.filter fun f => pyEndswith f ".ps1").map fun f => mkLaunch e.1 f)
    = ((filesWithDirs top t).filter fun p => pyEndswith p.2 ".ps1").map
        fun p => mkLaunch p.1 p.2 := by
  cases t with
  | node dirs files =>
    simp only [walk, filesWithDirs, List.flatMap_cons, List.filter_append,
      List.map_append, List.filter_map, List.map_map, Function.comp]
    exact congrArg _ (run_all_walkDirs top dirs)

theorem run_all_walkDirs (top : String) (l : List (String × FSTree)) :
    ((walkDirs top l).flatMap fun e =>
        (e.2.2.filter fun f => pyEndswith f ".ps1").map fun f => mkLaunch e.1 f)
    = ((filesWithDirsList top l).filter fun p => pyEndswith p.2 ".ps1").map
        fun p => mkLaunch p.1 p.2 := by
  cases l with
  | nil => simp [walkDirs, filesWithDirsList]
  | cons hd rest =>
    simp only [walkDirs, filesWithDirsList, List.flatMap_append, List.filter_append,
      List.map_append]
    exact congrArg₂ _ (run_all_walk (top ++ "/" ++ hd.1) hd.2) (run_all_walkDirs top rest)

end

/-- The dispatcher performs exactly one launch per matching file, in
traversal order, built by `mkLaunch` from the file's parent directory
and its name. -/
theorem run_all_eq (t : FSTree) :
    run_all t = (matchingFiles t).map fun p => mkLaunch p.1 p.2 := by
  unfold run_all matchingFiles
  exact run_all_walk "." t

mutual

theorem length_filter_filesWithDirs (top : String) (t : FSTree) :
    ((filesWithDirs top t).filter fun p => pyEndswith p.2 ".ps1").length
      = countMatching t := by
  cases t with
  | node dirs files =>
    simp only [filesWithDirs, countMatching, List.filter_append, List.length_append,
      List.filter_map, List.length_map, ← List.countP_eq_length_filter]
    exact congrArg₂ _ rfl
      (by
        rw [← length_filter_filesWithDirsList top dirs,
          List.countP_eq_length_filter])

theorem length_filter_filesWithDirsList (top : String) (l : List (String × FSTree)) :
    ((filesWithDirsList top l).filter fun p => pyEndswith p.2 ".ps1").length
      = countMatchingList l := by
  cases l with
  | nil => simp [filesWithDirsList, countMatchingList]
  | cons hd rest =>
    simp only [filesWithDirsList, countMatchingList, List.filter_append, List.length_append]
    exact congrArg₂ _ (length_filter_filesWithDirs (top ++ "/" ++ hd.1) hd.2)
      (length_filter_filesWithDirsList top rest)

end

/-- The number of matching files equals `countMatching`. -/
theorem length_matchingFiles (t : FSTree) :
    (matchingFiles t).length = countMatching t :=
  length_filter_filesWithDirs "." t

/-! ## Helper lemmas -/

theorem String.append_left_cancel {a b c : String} (h : a ++ b = a ++ c) : b = c := by
  apply String.ext
  have hd : a.data ++ b.data = a.data ++ c.data := by
    rw [← String.data_append, ← String.data_append, h]
  exact List.append_cancel_left hd

theorem mkLaunch_inj {p f q g : String} (h : mkLaunch p f = mkLaunch q g) :
    p = q ∧ f = g := by
  simp only [mkLaunch, Launch.mk.injEq, List.cons.injEq, and_true, true_and] at h
  exact ⟨h.2, String.append_left_cancel h.1⟩

/-- A four-character case variant of the suffix excludes the real one:
no string ends both in `".PS1"` and in `".ps1"`. -/
theorem not_endswith_ps1_of_endswith_PS1 {f : String}
    (h : pyEndswith f ".PS1" = true) : pyEndswith f ".ps1" = false := by
  rw [pyEndswith] at h ⊢
  rw [List.isSuffixOf_iff_suffix] at h
  by_contra hc
  rw [Bool.not_eq_false, List.isSuffixOf_iff_suffix] at hc
  have hor := List.suffix_or_suffix_of_suffix h hc
  have hne : (".PS1" : String).data ≠ (".ps1" : String).data := by decide
  rcases hor with hs | hs
  · exact hne (hs.eq_of_length rfl)
  · exact hne (hs.eq_of_length rfl).symm

/-- Every element of `run_all t` is the launch of some matching file. -/
theorem mem_run_all {t : FSTree} {l : Launch} (h : l ∈ run_all t) :
    ∃ p ∈ matchingFiles t, l = mkLaunch p.1 p.2 := by
  rw [run_all_eq] at h
  obtain ⟨p, hp, rfl⟩ := List.mem_map.mp h
  exact ⟨p, hp, rfl⟩

/-- Indexing into a flatMap of two-element blocks: even positions are
start events, odd positions are finish events. -/
theorem flatMap_pair_getElem? (L : List Launch) (i : Nat) :
    (L.flatMap fun l => [PEvent.start l, PEvent.finish l])[2 * i]?
        = L[i]?.map PEvent.start
    ∧ (L.flatMap fun l => [PEvent.start l, PEvent.finish l])[2 * i + 1]?
        = L[i]?.map PEvent.finish := by
  induction L generalizing i with
  | nil => simp
  | cons hd tl ih =>
    cases i with
    | zero => simp
    | succ n =>
      have h2 : 2 * (n + 1) = 2 * n + 1 + 1 := by omega
      rw [h2]
      simpa using ih n

theorem runSeq_ok (ex : LaunchOracle) (L : List Launch)
    (h : ∀ l ∈ L, (ex l).isOk = true) : runSeq ex L = (Except.ok (), L) := by
  induction L with
  | nil => rfl
  | cons hd tl ih =>
    have hhd := h hd (List.mem_cons_self hd tl)
    cases hex : ex hd with
    | error e => rw [hex] at hhd; simp [Except.isOk, Except.toBool] at hhd
    | ok c =>
      simp only [runSeq, hex]
      rw [ih fun l hl => h l (List.mem_cons_of_mem hd hl)]

theorem runSeq_error (ex : LaunchOracle) (L : List Launch) (i : Nat) (e : String)
    (li : Launch) (hi : L[i]? = some li) (he : ex li = Except.error e)
    (hbefore : (L.take i).all (fun l => (ex l).isOk) = true) :
    runSeq ex L = (Except.error e, L.take (i + 1)) := by
  induction L generalizing i with
  | nil => simp at hi
  | cons hd tl ih =>
    cases i with
    | zero =>
      obtain rfl : hd = li := by simpa using hi
      simp [runSeq, he]
    | succ n =>
      simp only [List.take_succ_cons, List.all_cons, Bool.and_eq_true] at hbefore
      cases hex : ex hd with
      | error e2 =>
        rw [hex] at hbefore; simp [Except.isOk, Except.toBool] at hbefore
      | ok c =>
        simp only [runSeq, hex, List.take_succ_cons]
        rw [ih n (by simpa using hi) hbefore.2]

/-! ## Claims -/

/-- C1: for every directory tree, the dispatcher performs exactly one
external-process launch per file whose name ends in ".ps1" and none for
any other file: the number of launches equals the number of matching
files. -/
theorem C1_launch_count (t : FSTree) :
    (run_all t).length = countMatching t := by
  rw [run_all_eq, List.length_map, length_matchingFiles]

/-- C2 counterexample: in a root containing the single matching file
"x.ps1", the script argument of the unique launch is ".\x.ps1"
(from the f-string `f".\{f}"`), which is not the base name "x.ps1",
so the claim fails as stated. -/
theorem C2_counterexample :
    run_all (FSTree.node [] ["x.ps1"])
      = [{ argv := ["powershell", "-NoProfile", ".\\x.ps1"], cwd := "." }]
    ∧ (".\\x.ps1" : String) ≠ "x.ps1" :=
  ⟨rfl, by decide⟩

/-- C2 (amended): for every matching file discovered during traversal,
the script argument of the corresponding launch equals the two
characters ".\" followed by the file's base name (still never the full
path). -/
theorem C2_script_argument (t : FSTree) (i : Nat) (p : String × String)
    (h : (matchingFiles t)[i]? = some p) :
    ∃ l, (run_all t)[i]? = some l ∧ l.argv.getD 2 "" = ".\\" ++ p.2 := by
  refine ⟨mkLaunch p.1 p.2, ?_, rfl⟩
  rw [run_all_eq, List.getElem?_map, h]
  rfl

/-- C2 witness: the amended claim instantiated at a one-file tree. -/
theorem C2_script_argument_witness :
    ∃ l, (run_all (FSTree.node [] ["x.ps1"]))[0]? = some l
      ∧ l.argv.getD 2 "" = ".\\" ++ "x.ps1" :=
  C2_script_argument (FSTree.node [] ["x.ps1"]) 0 (".", "x.ps1") (by decide)

/-- C3: for every matching file discovered during traversal, the working
directory passed to the launched process equals the file's parent
directory. -/
theorem C3_cwd_is_parent_dir (t : FSTree) (i : Nat) (p : String × String)
    (h : (matchingFiles t)[i]? = some p) :
    ∃ l, (run_all t)[i]? = some l ∧ l.cwd = p.1 := by
  refine ⟨mkLaunch p.1 p.2, ?_, rfl⟩
  rw [run_all_eq, List.getElem?_map, h]
  rfl

/-- C3 witness: the launch for the file "a/x.ps1" runs with working
directory "./a". -/
theorem C3_cwd_is_parent_dir_witness :
    ∃ l, (run_all (FSTree.node [("a", FSTree.node [] ["x.ps1"])] []))[0]? = some l
      ∧ l.cwd = "./a" :=
  C3_cwd_is_parent_dir (FSTree.node [("a", FSTree.node [] ["x.ps1"])] []) 0
    ("./a", "x.ps1") (by decide)

/-- C4 counterexample: on the scenario tree exactly as the spec writes
it (root contains a/x.sh, b/c/y.sh, readme.txt) the dispatcher launches
zero processes, not two: the filter suffix in the code is ".ps1", so
neither ".sh" file matches. -/
theorem C4_counterexample :
    run_all shScenario = [] ∧ (run_all shScenario).length ≠ 2 :=
  ⟨rfl, by decide⟩

/-- C4 (amended): on the scenario tree with the script's actual suffix
(root contains a/x.ps1, b/c/y.ps1, readme.txt) the dispatcher launches
exactly two processes, in traversal order: one with working directory
"./a" and script argument ".\x.ps1", one with working directory "./b/c"
and script argument ".\y.ps1"; readme.txt never appears in any argv. -/
theorem C4_scenario :
    run_all ps1Scenario
      = [{ argv := ["powershell", "-NoProfile", ".\\x.ps1"], cwd := "./a" },
         { argv := ["powershell", "-NoProfile", ".\\y.ps1"], cwd := "./b/c" }]
    ∧ ∀ l ∈ run_all ps1Scenario, "readme.txt" ∉ l.argv :=
  ⟨rfl, by decide⟩

/-- C5: a directory tree containing zero matching files produces zero
launches (and `run_all`, being a total function, completes without
error). -/
theorem C5_no_match_no_launch (t : FSTree) (h : countMatching t = 0) :
    run_all t = [] := by
  have hl : (run_all t).length = 0 := by
    rw [run_all_eq, List.length_map, length_matchingFiles, h]
  exact List.length_eq_zero.mp hl

/-- C5 witness: a tree whose files all lack the suffix yields no
launches. -/
theorem C5_no_match_no_launch_witness :
    countMatching (FSTree.node [("a", FSTree.node [] ["readme.txt"])] ["notes.md"]) = 0
    ∧ run_all (FSTree.node [("a", FSTree.node [] ["readme.txt"])] ["notes.md"]) = [] :=
  ⟨by decide, C5_no_match_no_launch _ (by decide)⟩

/-- C6: every matching file, at any nesting depth below the root, is
discovered by the traversal and gets a launch. -/
theorem C6_recursive_discovery (t : FSTree) (p f : String)
    (hmem : (p, f) ∈ filesWithDirs "." t) (hm : pyEndswith f ".ps1" = true) :
    mkLaunch p f ∈ run_all t := by
  rw [run_all_eq]
  exact List.mem_map_of_mem _ (List.mem_filter.mpr ⟨hmem, hm⟩)

/-- C6 witness: a file two levels below the root is launched. -/
theorem C6_recursive_discovery_witness :
    mkLaunch "./a/b" "deep.ps1"
      ∈ run_all (FSTree.node [("a", FSTree.node [("b", FSTree.node [] ["deep.ps1"])] [])] []) :=
  C6_recursive_discovery _ "./a/b" "deep.ps1" (by decide) (by decide)

/-- C7: execution is strictly sequential: for any two launches at
positions i < j, the finish event of launch i occurs in the dispatcher's
event trace strictly before the start event of launch j, so launch i is
awaited to completion before launch j begins and no two launched
processes overlap. -/
theorem C7_sequential (t : FSTree) (i j : Nat) (li lj : Launch)
    (hij : i < j) (hi : (run_all t)[i]? = some li)
    (hj : (run_all t)[j]? = some lj) :
    (trace t)[2 * i + 1]? = some (PEvent.finish li)
    ∧ (trace t)[2 * j]? = some (PEvent.start lj)
    ∧ 2 * i + 1 < 2 * j := by
  refine ⟨?_, ?_, by omega⟩
  · rw [trace, (flatMap_pair_getElem? (run_all t) i).2, hi]
    rfl
  · rw [trace, (flatMap_pair_getElem? (run_all t) j).1, hj]
    rfl

/-- C7 witness: with two matching files, the first launch's finish event
(position 1) precedes the second launch's start event (position 2). -/
theorem C7_sequential_witness :
    (trace (FSTree.node [] ["a.ps1", "b.ps1"]))[1]?
        = some (PEvent.finish (mkLaunch "." "a.ps1"))
    ∧ (trace (FSTree.node [] ["a.ps1", "b.ps1"]))[2]?
        = some (PEvent.start (mkLaunch "." "b.ps1"))
    ∧ 1 < 2 :=
  C7_sequential (FSTree.node [] ["a.ps1", "b.ps1"]) 0 1
    (mkLaunch "." "a.ps1") (mkLaunch "." "b.ps1") (by decide) (by decide) (by decide)

/-- C8: exit codes are ignored and exceptions are not handled: if the
launch oracle completes every process, every planned launch is attempted
and the run succeeds whatever the exit codes are; if the oracle raises
an exception on the launch at position i after completing all earlier
ones, the run ends with that error having attempted only the first i+1
launches, leaving the remaining matches unprocessed. -/
theorem C8_error_handling (ex : LaunchOracle) (t : FSTree) :
    ((∀ l, (ex l).isOk = true) → run_allE ex t = (Except.ok (), run_all t))
    ∧ ∀ i e li, (run_all t)[i]? = some li → ex li = Except.error e →
        ((run_all t).take i).all (fun l => (ex l).isOk) = true →
        run_allE ex t = (Except.error e, (run_all t).take (i + 1)) := by
  constructor
  · intro h
    exact runSeq_ok ex (run_all t) fun l _ => h l
  · intro i e li hi he hb
    exact runSeq_error ex (run_all t) i e li hi he hb

/-- C8 witness: with three matching scripts, an oracle returning exit
code 1 everywhere still attempts all three launches and the run
succeeds; the failSecond oracle aborts the run with its exception after
the second attempt and the third script is never attempted. -/
theorem C8_error_handling_witness :
    run_allE (fun _ => Except.ok 1) threeScripts = (Except.ok (), run_all threeScripts)
    ∧ run_allE failSecond threeScripts
      = (Except.error "FileNotFoundError", (run_all threeScripts).take 2) :=
  ⟨(C8_error_handling (fun _ => Except.ok 1) threeScripts).1 fun _ => rfl,
   (C8_error_handling failSecond threeScripts).2 1 "FileNotFoundError"
     (mkLaunch "." "b.ps1") (by decide) rfl (by decide)⟩

/-- C9: the suffix filter is an exact, case-sensitive match on ".ps1":
a file whose name ends in ".PS1", or whose name is exactly "ps1" without
the dot, never produces a launch. -/
theorem C9_case_sensitive_filter (t : FSTree) (p f : String)
    (h : pyEndswith f ".PS1" = true ∨ f = "ps1") :
    mkLaunch p f ∉ run_all t := by
  have hf : pyEndswith f ".ps1" = false := by
    rcases h with h | rfl
    · exact not_endswith_ps1_of_endswith_PS1 h
    · decide
  intro hmem
  obtain ⟨q, hq, heq⟩ := mem_run_all hmem
  have hfq : f = q.2 := (mkLaunch_inj heq).2
  have hq2 : pyEndswith q.2 ".ps1" = true := (List.mem_filter.mp hq).2
  rw [← hfq] at hq2
  exact Bool.noConfusion (hq2.symm.trans hf)

/-- C9 witness: a file named "a.PS1" yields no launch even in a tree
that contains it. -/
theorem C9_case_sensitive_filter_witness :
    mkLaunch "." "a.PS1" ∉ run_all (FSTree.node [] ["a.PS1", "ps1"]) :=
  C9_case_sensitive_filter (FSTree.node [] ["a.PS1", "ps1"]) "." "a.PS1"
    (Or.inl (by decide))

/-- C10: every launch carries the identical fixed command: exactly three
argv elements, the first being the constant "powershell" and the second
the constant "-NoProfile". -/
theorem C10_fixed_argv (t : FSTree) (l : Launch) (h : l ∈ run_all t) :
    l.argv.length = 3 ∧ l.argv[0]? = some "powershell"
    ∧ l.argv[1]? = some "-NoProfile" := by
  obtain ⟨p, -, rfl⟩ := mem_run_all h
  exact ⟨rfl, rfl, rfl⟩

/-- C10 witness: the fixed command shape at a concrete launch. -/
theorem C10_fixed_argv_witness :
    (mkLaunch "." "x.ps1").argv.length = 3
    ∧ (mkLaunch "." "x.ps1").argv[0]? = some "powershell"
    ∧ (mkLaunch "." "x.ps1").argv[1]? = some "-NoProfile" :=
  C10_fixed_argv (FSTree.node [] ["x.ps1"]) (mkLaunch "." "x.ps1") (by decide)
